import Mathlib

/-!
Shallow embedding of the lead-trade-dashboard filter/aggregation pipeline.

The embedding translates the pandas code of `src/data_loader.py`,
`src/filters.py`, `src/calculations.py` and the aggregation blocks of
`app.py` into executable Lean definitions:

* a pandas DataFrame of trade records becomes `List TradeRow`, a DataFrame
  of country metadata becomes `List CountryRow`; a nullable column becomes
  an `Option` field (a NaN cell compares unequal to every string, which is
  what `Option.none` together with `= some x` checks gives);
* float columns (`quantity`, `value`) are modelled as exact rationals;
* `Series.sum()` with its default `skipna=True` becomes `sumQuantity`;
* `sorted(...)` / `sort_values(...)` become a stable insertion sort
  (`sortLe`); `groupby(key)` sorts its group keys ascending, which is
  modelled by sorting the deduplicated key list with `strLeb`, the
  code-point lexicographic order Python uses on `str`;
* `str.zfill(6)` becomes `zfill 6`, including Python's sign handling and
  its behaviour on strings already at least 6 characters long;
* `Series.str.replace(pat, rep, regex=False)` becomes `str_replace`,
  a left-to-right non-overlapping substring replacement.
-/

namespace LeadTrade

/-- A cell of the `product` CSV column before normalization: pandas may
read it as an integer or as a string. -/
inductive ProductCell where
  | intVal (n : Int)
  | strVal (s : String)

/-- `astype(str)` on a product cell. -/
def ProductCell.pyStr : ProductCell → String
  | .intVal n => toString n
  | .strVal s => s

/-- A raw trade record as read by `pd.read_csv` in `load_trade_data`,
before the cleaning steps run.  Geographic columns are carried so that
the same record type can flow into `filter_by_geography`, which reads
them when present (`src/filters.py`). -/
structure RawTradeRow where
  year : Int
  exporter_name : String
  importer_name : String
  product : ProductCell
  quantity : Option ℚ
  value : ℚ
  region : Option String := none
  subregion : Option String := none
  intermediate_region : Option String := none

/-- A processed trade record, after `load_trade_data` has fixed the
encoding, zero-padded the product code and attached a category. -/
structure TradeRow where
  year : Int
  exporter_name : String
  importer_name : String
  product : String
  quantity : Option ℚ
  value : ℚ
  region : Option String := none
  subregion : Option String := none
  intermediate_region : Option String := none
  category : Option String := none

/-- A row of `countries.csv` (`load_country_data`); every column may be
missing in the source file, so each is an `Option`. -/
structure CountryRow where
  name : Option String
  region : Option String
  subregion : Option String
  intermediate_region : Option String
  iso3 : Option String := none

/-! ### Configuration (`src/config.py`) -/

/-- `HS_CODE_CATEGORIES` from `src/config.py` / `app.py`: the fixed,
ordered taxonomy of HS codes grouped by category. -/
def HS_CODE_CATEGORIES : List (String × List (String × String)) :=
  [ ("Ores & Concentrates",
      [("260700", "Lead ores and concentrates")]),
    ("New Lead",
      [("780110", "Refined lead - unwrought"),
       ("780191", "Other unwrought lead"),
       ("780199", "Other refined lead")]),
    ("New Batteries",
      [("850710", "New lead-acid batteries for starting engines"),
       ("850720", "Other new lead-acid batteries")]),
    ("Used Batteries & Scrap",
      [("854810", "Waste batteries"),
       ("780200", "Lead waste and scrap")]) ]

/-- `HS_TO_CATEGORY`: the flat HS-code → category mapping derived from
`HS_CODE_CATEGORIES`. -/
def HS_TO_CATEGORY : List (String × String) :=
  (HS_CODE_CATEGORIES.map (fun cp => cp.2.map (fun pd => (pd.1, cp.1)))).flatten

/-- `list(HS_CODE_CATEGORIES.values())[0][0][0]`: the first HS code of the
first category, used as the fallback when no product is selected
(`app.py` line 224). -/
def default_hs_code : String :=
  match HS_CODE_CATEGORIES with
  | (_, (code, _) :: _) :: _ => code
  | _ => ""

/-- `app.py` lines 221-224: if the list of selected HS codes is empty,
substitute the single default code. -/
def ensure_nonempty_selection (sel : List String) : List String :=
  if sel.isEmpty then [default_hs_code] else sel

/-! ### String utilities used by `load_trade_data` -/

/-- The fill step of Python `str.zfill(width)` on the character list of a
string shorter than `width`: left-fill with `'0'`, keeping a leading sign
character in front. -/
def zfillData (width : Nat) : List Char → List Char
  | [] => List.replicate width '0'
  | c :: rest =>
    if c = '+' ∨ c = '-' then
      c :: (List.replicate (width - (c :: rest).length) '0' ++ rest)
    else
      List.replicate (width - (c :: rest).length) '0' ++ (c :: rest)

/-- Python `str.zfill(width)`: return the string unchanged when it is
already at least `width` characters long, otherwise left-fill with `'0'`
up to `width`, keeping a leading sign character in front. -/
def zfill (width : Nat) (s : String) : String :=
  if width ≤ s.length then s else String.mk (zfillData width s.data)

/-- Helper for `str_replace`: scan the character list left to right,
replacing each non-overlapping occurrence of `pat` by `rep`; the fuel
argument is bounded by the input length (each step consumes at least one
character when `pat` is nonempty). -/
def replaceAllAux (pat rep : List Char) : Nat → List Char → List Char
  | _, [] => []
  | 0, s => s
  | fuel + 1, c :: rest =>
    if pat ≠ [] ∧ pat.isPrefixOf (c :: rest) then
      rep ++ replaceAllAux pat rep fuel ((c :: rest).drop pat.length)
    else
      c :: replaceAllAux pat rep fuel rest

/-- Python `s.replace(pat, rep)` (equivalently pandas
`Series.str.replace(pat, rep, regex=False)` on one cell): left-to-right
non-overlapping substring replacement. -/
def str_replace (s pat rep : String) : String :=
  String.mk (replaceAllAux pat.data rep.data s.data.length s.data)

/-- The corrupted double-encoded spelling repaired by `load_trade_data`. -/
def turkiye_corrupted : String := "TÃ¼rkiye"

/-- The correct spelling. -/
def turkiye_fixed : String := "Türkiye"

/-! ### Loading (`src/data_loader.py`) -/

/-- The per-row processing performed by `load_trade_data`
(`src/data_loader.py` lines 26-39): repair the `Türkiye` encoding in both
name columns, zero-pad the product code to 6 characters as a string, and
attach the category via `HS_TO_CATEGORY`. -/
def processTradeRow (r : RawTradeRow) : TradeRow :=
  { year := r.year
    exporter_name := str_replace r.exporter_name turkiye_corrupted turkiye_fixed
    importer_name := str_replace r.importer_name turkiye_corrupted turkiye_fixed
    product := zfill 6 r.product.pyStr
    quantity := r.quantity
    value := r.value
    region := r.region
    subregion := r.subregion
    intermediate_region := r.intermediate_region
    category := List.lookup (zfill 6 r.product.pyStr) HS_TO_CATEGORY }

/-- `load_trade_data` applied to an already-parsed CSV: the per-row
cleaning steps, applied to every row. -/
def load_trade_data (rows : List RawTradeRow) : List TradeRow :=
  rows.map processTradeRow

/-! ### Geographic filters (`src/filters.py`) -/

/-- `filter_by_geography` (`src/filters.py` lines 7-41): when a country is
given, keep exactly the rows whose `exporter_name` equals it, ignoring the
ancestor arguments; otherwise apply each given ancestor filter in turn. -/
def filter_by_geography (df : List TradeRow)
    (region subregion intermediate_region country : Option String) :
    List TradeRow :=
  match country with
  | some c => df.filter (fun r => decide (r.exporter_name = c))
  | none =>
    let f1 := match region with
      | some rg => df.filter (fun r => decide (r.region = some rg))
      | none => df
    let f2 := match subregion with
      | some sg => f1.filter (fun r => decide (r.subregion = some sg))
      | none => f1
    match intermediate_region with
      | some ig => f2.filter (fun r => decide (r.intermediate_region = some ig))
      | none => f2

/-- Code-point lexicographic comparison of character lists — the order
Python's `sorted` and pandas' `groupby(sort=True)` use on `str` keys. -/
def lexLe : List Char → List Char → Bool
  | [], _ => true
  | _ :: _, [] => false
  | a :: as, b :: bs =>
    if a.toNat < b.toNat then true
    else if b.toNat < a.toNat then false
    else lexLe as bs

/-- `lexLe` lifted to strings. -/
def strLeb (a b : String) : Bool := lexLe a.data b.data

/-- Stable insertion of `x` into `l`: `x` is placed in front of the first
element `y` with `le x y`, so an element inserted later (i.e. appearing
earlier in the unsorted input) comes first among equals. -/
def insertLe (le : α → α → Bool) (x : α) : List α → List α
  | [] => [x]
  | y :: ys => if le x y then x :: y :: ys else y :: insertLe le x ys

/-- Stable insertion sort with respect to `le`. -/
def sortLe (le : α → α → Bool) : List α → List α
  | [] => []
  | x :: xs => insertLe le x (sortLe le xs)

/-- Python `sorted` on a list of strings. -/
def sortStr (l : List String) : List String := sortLe strLeb l

/-- The row subset selected by `get_available_countries`
(`src/filters.py` lines 92-119) before names are extracted: rows with a
non-absent name, narrowed by each given ancestor filter. -/
def country_rows (df : List CountryRow)
    (region subregion intermediate_region : Option String) :
    List CountryRow :=
  let f0 := df.filter (fun r => r.name.isSome)
  let f1 := match region with
    | some rg => f0.filter (fun r => decide (r.region = some rg))
    | none => f0
  let f2 := match subregion with
    | some sg => f1.filter (fun r => decide (r.subregion = some sg))
    | none => f1
  match intermediate_region with
    | some ig => f2.filter (fun r => decide (r.intermediate_region = some ig))
    | none => f2

/-- `get_available_countries`: the sorted, duplicate-free list of country
names among the filtered rows (`sorted(filtered['name'].drop_duplicates()
.to_list())`; dropping duplicates before or after the sort yields the same
sorted duplicate-free list). -/
def get_available_countries (df : List CountryRow)
    (region subregion intermediate_region : Option String) : List String :=
  sortStr ((country_rows df region subregion intermediate_region).filterMap
    (fun r => r.name)).dedup

/-! ### Aggregation (`app.py`) -/

/-- pandas `Series.sum()` with the default `skipna=True` over a nullable
quantity column: null cells are skipped, non-null cells are added. -/
def sumQuantity : List (Option ℚ) → ℚ
  | [] => 0
  | none :: rest => sumQuantity rest
  | some q :: rest => q + sumQuantity rest

/-- `exports_year['quantity'].sum()` (`app.py` line 302): the total
quantity of a row subset. -/
def total_quantity (rows : List TradeRow) : ℚ :=
  sumQuantity (rows.map (fun r => r.quantity))

/-- `calculate_yoy_change` (`src/calculations.py` lines 4-18, duplicated
in `app.py` lines 303-306): percent change, with 0 returned when the
previous value is 0. -/
def calculate_yoy_change (current_value previous_value : ℚ) : ℚ :=
  if previous_value = 0 then 0
  else ((current_value - previous_value) / previous_value) * 100

/-- `exports[exports['year'] == selected_year]` (`app.py` line 537). -/
def year_rows (trades : List TradeRow) (year : Int) : List TradeRow :=
  trades.filter (fun r => decide (r.year = year))

/-- One group's aggregate in `groupby(partner)['quantity'].sum()`: the sum
of the (non-null) quantities of the rows with the given partner key. -/
def partner_total (partner : TradeRow → String) (rows : List TradeRow)
    (p : String) : ℚ :=
  sumQuantity ((rows.filter (fun r => decide (partner r = p))).map
    (fun r => r.quantity))

/-- `groupby(partner)['quantity'].sum()` with pandas' default
`sort=True`: one `(key, total)` pair per distinct partner, keys in
ascending lexicographic order. -/
def partner_group_totals (partner : TradeRow → String)
    (rows : List TradeRow) : List (String × ℚ) :=
  (sortStr ((rows.map partner).dedup)).map
    (fun p => (p, partner_total partner rows p))

/-- Descending comparison on group totals used by
`sort_values(ascending=False)`. -/
def quantityGe (a b : String × ℚ) : Bool := decide (b.2 ≤ a.2)

/-- The guarantee `sort_values(ascending=False)` gives on the grouped
totals: the output is a permutation of the input that is weakly
descending by total.  The default `kind='quicksort'` (numpy introsort) is
documented unstable, so the order among entries with equal totals is NOT
specified beyond this contract; any property of the program must hold for
every output satisfying it. -/
def sort_values_desc_spec (l out : List (String × ℚ)) : Prop :=
  out.Perm l ∧ List.Pairwise (fun a b => b.2 ≤ a.2) out

/-- `country_totals` (`app.py` lines 539-546 for exports, 686-693 for
imports): restrict to the chosen year, sum quantity per partner, sort the
totals descending and keep the first 20 (`.head(20)`).  The executable
model uses a stable insertion sort, which is ONE output satisfying
`sort_values_desc_spec` (and agrees with numpy on arrays short enough to
fall in its insertion-sort range, such as the concrete examples below);
the program does not guarantee this tie order in general, so theorems
about tie order quantify over `sort_values_desc_spec` instead of reading
it off this function. -/
def country_totals (partner : TradeRow → String) (trades : List TradeRow)
    (year : Int) : List (String × ℚ) :=
  (sortLe quantityGe (partner_group_totals partner (year_rows trades year))).take 20

/-! ### Order properties of the lexicographic comparison -/

/-- `lexLe` is total. -/
theorem lexLe_total : ∀ a b : List Char, lexLe a b = true ∨ lexLe b a = true := by
  intro a
  induction a with
  | nil => intro b; left; rfl
  | cons x xs ih =>
    intro b
    cases b with
    | nil => right; rfl
    | cons y ys =>
      simp only [lexLe]
      rcases Nat.lt_trichotomy x.toNat y.toNat with h | h | h
      · left; simp [h]
      · have h1 : ¬ x.toNat < y.toNat := by omega
        have h2 : ¬ y.toNat < x.toNat := by omega
        simpa [h1, h2] using ih ys
      · right; simp [h, Nat.lt_asymm h]

/-- `lexLe` is transitive. -/
theorem lexLe_trans : ∀ a b c : List Char,
    lexLe a b = true → lexLe b c = true → lexLe a c = true := by
  intro a
  induction a with
  | nil => intro b c _ _; rfl
  | cons x xs ih =>
    intro b c hab hbc
    cases b with
    | nil => simp [lexLe] at hab
    | cons y ys =>
      cases c with
      | nil => simp [lexLe] at hbc
      | cons z zs =>
        simp only [lexLe] at hab hbc ⊢
        by_cases hxy : x.toNat < y.toNat
        · by_cases hyz : y.toNat < z.toNat
          · have hxz : x.toNat < z.toNat := Nat.lt_trans hxy hyz
            simp [hxz]
          · by_cases hzy : z.toNat < y.toNat
            · simp [hyz, hzy] at hbc
            · have hxz : x.toNat < z.toNat := by omega
              simp [hxz]
        · by_cases hyx : y.toNat < x.toNat
          · simp [hxy, hyx] at hab
          · have hab' : lexLe xs ys = true := by simpa [hxy, hyx] using hab
            by_cases hyz : y.toNat < z.toNat
            · have hxz : x.toNat < z.toNat := by omega
              simp [hxz]
            · by_cases hzy : z.toNat < y.toNat
              · simp [hyz, hzy] at hbc
              · have hbc' : lexLe ys zs = true := by simpa [hyz, hzy] using hbc
                have h1 : ¬ x.toNat < z.toNat := by omega
                have h2 : ¬ z.toNat < x.toNat := by omega
                simp [h1, h2]
                exact ih ys zs hab' hbc'

/-- `strLeb` is total. -/
theorem strLeb_total (a b : String) : strLeb a b = true ∨ strLeb b a = true :=
  lexLe_total a.data b.data

/-- `strLeb` is transitive. -/
theorem strLeb_trans (a b c : String) :
    strLeb a b = true → strLeb b c = true → strLeb a c = true :=
  lexLe_trans a.data b.data c.data

/-! ### Properties of the stable insertion sort -/

/-- Membership in an insertion. -/
theorem mem_insertLe (le : α → α → Bool) (x : α) (l : List α) (a : α) :
    a ∈ insertLe le x l ↔ a = x ∨ a ∈ l := by
  induction l with
  | nil => simp [insertLe]
  | cons y ys ih =>
    simp only [insertLe]
    by_cases h : le x y = true
    · rw [if_pos h]
      simp [List.mem_cons]
    · rw [if_neg h]
      simp only [List.mem_cons, ih]
      tauto

/-- Membership is preserved by the sort. -/
theorem mem_sortLe (le : α → α → Bool) (l : List α) (a : α) :
    a ∈ sortLe le l ↔ a ∈ l := by
  induction l with
  | nil => simp [sortLe]
  | cons x xs ih => simp [sortLe, mem_insertLe, ih, List.mem_cons]

/-- Insertion produces a permutation of consing. -/
theorem perm_insertLe (le : α → α → Bool) (x : α) (l : List α) :
    (insertLe le x l).Perm (x :: l) := by
  induction l with
  | nil => exact List.Perm.refl _
  | cons y ys ih =>
    simp only [insertLe]
    by_cases h : le x y = true
    · rw [if_pos h]
    · rw [if_neg h]
      exact (ih.cons y).trans (List.Perm.swap x y ys)

/-- The sort permutes its input. -/
theorem perm_sortLe (le : α → α → Bool) (l : List α) :
    (sortLe le l).Perm l := by
  induction l with
  | nil => exact List.Perm.refl _
  | cons x xs ih => exact (perm_insertLe le x (sortLe le xs)).trans (ih.cons x)

/-- Inserting into a sorted list keeps it sorted, given a total and
transitive comparison. -/
theorem pairwise_insertLe (le : α → α → Bool)
    (htrans : ∀ a b c, le a b = true → le b c = true → le a c = true)
    (htot : ∀ a b, le a b = true ∨ le b a = true)
    (x : α) (l : List α) (hl : List.Pairwise (fun a b => le a b = true) l) :
    List.Pairwise (fun a b => le a b = true) (insertLe le x l) := by
  induction l with
  | nil => simp [insertLe]
  | cons y ys ih =>
    cases hl with
    | cons hy hys =>
      simp only [insertLe]
      by_cases h : le x y = true
      · rw [if_pos h]
        refine List.Pairwise.cons ?_ (List.Pairwise.cons hy hys)
        intro z hz
        rcases List.mem_cons.mp hz with rfl | hz'
        · exact h
        · exact htrans x y z h (hy z hz')
      · rw [if_neg h]
        have hyx : le y x = true := (htot x y).resolve_left h
        refine List.Pairwise.cons ?_ (ih hys)
        intro z hz
        rcases (mem_insertLe le x ys z).mp hz with rfl | hz'
        · exact hyx
        · exact hy z hz'

/-- The sort is sorted, given a total and transitive comparison. -/
theorem pairwise_sortLe (le : α → α → Bool)
    (htrans : ∀ a b c, le a b = true → le b c = true → le a c = true)
    (htot : ∀ a b, le a b = true ∨ le b a = true)
    (l : List α) :
    List.Pairwise (fun a b => le a b = true) (sortLe le l) := by
  induction l with
  | nil => simp [sortLe]
  | cons x xs ih => exact pairwise_insertLe le htrans htot x (sortLe le xs) ih

/-- The descending total comparison is transitive. -/
theorem quantityGe_trans (a b c : String × ℚ) :
    quantityGe a b = true → quantityGe b c = true → quantityGe a c = true := by
  simp only [quantityGe, decide_eq_true_eq]
  exact fun h1 h2 => le_trans h2 h1

/-- The descending total comparison is total. -/
theorem quantityGe_total (a b : String × ℚ) :
    quantityGe a b = true ∨ quantityGe b a = true := by
  simp only [quantityGe, decide_eq_true_eq]
  exact le_total b.2 a.2

/-! ### Membership characterizations of the filter chains -/

/-- Rows selected by `filter_by_geography` when no country is given:
exactly the rows of the input satisfying every given ancestor filter. -/
theorem mem_filter_by_geography_none (df : List TradeRow) (r s i : Option String)
    (row : TradeRow) :
    row ∈ filter_by_geography df r s i none ↔
      row ∈ df ∧ (∀ rg, r = some rg → row.region = some rg)
        ∧ (∀ sg, s = some sg → row.subregion = some sg)
        ∧ (∀ ig, i = some ig → row.intermediate_region = some ig) := by
  cases r <;> cases s <;> cases i <;>
    simp [filter_by_geography, List.mem_filter, decide_eq_true_eq, and_assoc] <;>
    tauto

/-- Rows selected by the `get_available_countries` filter chain. -/
theorem mem_country_rows (df : List CountryRow) (r s i : Option String)
    (row : CountryRow) :
    row ∈ country_rows df r s i ↔
      row ∈ df ∧ row.name.isSome = true
        ∧ (∀ rg, r = some rg → row.region = some rg)
        ∧ (∀ sg, s = some sg → row.subregion = some sg)
        ∧ (∀ ig, i = some ig → row.intermediate_region = some ig) := by
  cases r <;> cases s <;> cases i <;>
    simp [country_rows, List.mem_filter, decide_eq_true_eq, and_assoc] <;>
    tauto

/-- A name appears in `get_available_countries` exactly when some selected
row carries it. -/
theorem mem_get_available_countries (df : List CountryRow) (r s i : Option String)
    (x : String) :
    x ∈ get_available_countries df r s i ↔
      ∃ row, row ∈ country_rows df r s i ∧ row.name = some x := by
  simp [get_available_countries, sortStr, mem_sortLe, List.mem_dedup,
    List.mem_filterMap]

/-- `sumQuantity` adds exactly the non-null cells. -/
theorem sumQuantity_eq_sum_filterMap (qs : List (Option ℚ)) :
    sumQuantity qs = (qs.filterMap id).sum := by
  induction qs with
  | nil => simp [sumQuantity]
  | cons q rest ih => cases q <;> simp [sumQuantity, ih]

/-! ### Properties of `zfill` -/

/-- `zfillData` produces exactly `width` characters when the input is no
longer than `width`. -/
theorem zfillData_length (w : Nat) (l : List Char) (hlen : l.length ≤ w) :
    (zfillData w l).length = w := by
  cases l with
  | nil => simp [zfillData]
  | cons c rest =>
    simp only [zfillData]
    by_cases hc : c = '+' ∨ c = '-'
    · rw [if_pos hc]
      simp only [List.length_cons, List.length_append, List.length_replicate]
      simp only [List.length_cons] at hlen
      omega
    · rw [if_neg hc]
      simp only [List.length_append, List.length_replicate, List.length_cons]
      simp only [List.length_cons] at hlen
      omega

/-- `zfill` never shortens below the requested width. -/
theorem zfill_length_ge (w : Nat) (s : String) : w ≤ (zfill w s).length := by
  unfold zfill
  by_cases h : w ≤ s.length
  · rw [if_pos h]; exact h
  · rw [if_neg h]
    have hlen : s.data.length ≤ w := le_of_lt (Nat.lt_of_not_le h)
    have hw : (String.mk (zfillData w s.data)).length = w := zfillData_length w s.data hlen
    exact le_of_eq hw.symm

/-- Every character produced by `zfillData` from an all-digit input is a
digit (the fill character `'0'` is a digit). -/
theorem zfillData_digits (w : Nat) (l : List Char)
    (hdig : ∀ c ∈ l, c.isDigit = true) :
    ∀ c ∈ zfillData w l, c.isDigit = true := by
  cases l with
  | nil =>
    intro c hc
    have := List.eq_of_mem_replicate (by simpa [zfillData] using hc)
    subst this
    decide
  | cons c0 rest =>
    have hc0 : c0.isDigit = true := hdig c0 (List.mem_cons_self _ _)
    have hcne : ¬ (c0 = '+' ∨ c0 = '-') := by
      rintro (rfl | rfl) <;> simp at hc0
    intro c hc
    simp only [zfillData, if_neg hcne] at hc
    rcases List.mem_append.mp hc with hrep | hmem
    · have := List.eq_of_mem_replicate hrep
      subst this
      decide
    · exact hdig c hmem

/-- Zero-filling a string of at most `w` digit characters yields exactly
`w` digit characters. -/
theorem zfill_digits (w : Nat) (s : String) (hlen : s.length ≤ w)
    (hdig : ∀ c ∈ s.data, c.isDigit = true) :
    (zfill w s).length = w ∧ ∀ c ∈ (zfill w s).data, c.isDigit = true := by
  unfold zfill
  by_cases h : w ≤ s.length
  · rw [if_pos h]
    exact ⟨le_antisymm hlen h, hdig⟩
  · rw [if_neg h]
    exact ⟨zfillData_length w s.data hlen, zfillData_digits w s.data hdig⟩

/-- The numeric-string branch of `zfill`: no sign, so the fill goes in
front of the whole string. -/
theorem zfill_eq_pad (w : Nat) (s : String) (hlt : s.length < w)
    (hdig : ∀ c ∈ s.data, c.isDigit = true) :
    zfill w s = String.mk (List.replicate (w - s.length) '0' ++ s.data) := by
  unfold zfill
  rw [if_neg (by omega)]
  cases hs : s.data with
  | nil =>
    have h0 : s.length = 0 := by
      rw [show s.length = s.data.length from rfl, hs]
      rfl
    simp [zfillData, h0]
  | cons c0 rest =>
    have hc0 : c0.isDigit = true := hdig c0 (by rw [hs]; exact List.mem_cons_self _ _)
    have hcne : ¬ (c0 = '+' ∨ c0 = '-') := by
      rintro (rfl | rfl) <;> simp at hc0
    have hsl : s.length = (c0 :: rest).length := by
      rw [show s.length = s.data.length from rfl, hs]
    simp only [zfillData, if_neg hcne, hsl]

/-! ### Concrete sample data for witnesses and counterexamples -/

/-- A minimal concrete trade row used in concrete checks. -/
def mkTradeRow (y : Int) (ex im : String) (q : Option ℚ) : TradeRow :=
  { year := y, exporter_name := ex, importer_name := im, product := "780110",
    quantity := q, value := 0 }

/-- A concrete export row China → USA. -/
def sample_row_china : TradeRow := mkTradeRow 2020 "China" "USA" (some 5)

/-! ### Claims -/

/-- Claim C2: with a country given, `filter_by_geography` returns exactly
the rows whose `exporter_name` equals the country, regardless of the
ancestor arguments; with no country, the rows satisfying every given
ancestor filter; with no arguments at all, everything. -/
theorem claim_C2 (df : List TradeRow) (r s i : Option String) (c : String) :
    filter_by_geography df r s i (some c)
        = df.filter (fun row => decide (row.exporter_name = c))
    ∧ (∀ row ∈ filter_by_geography df r s i (some c), row.exporter_name = c)
    ∧ (∀ row, row ∈ filter_by_geography df r s i none ↔
        row ∈ df ∧ (∀ rg, r = some rg → row.region = some rg)
          ∧ (∀ sg, s = some sg → row.subregion = some sg)
          ∧ (∀ ig, i = some ig → row.intermediate_region = some ig))
    ∧ filter_by_geography df none none none none = df := by
  refine ⟨rfl, ?_, fun row => mem_filter_by_geography_none df r s i row, rfl⟩
  intro row hrow
  have e : filter_by_geography df r s i (some c)
      = df.filter (fun row => decide (row.exporter_name = c)) := rfl
  rw [e] at hrow
  simpa using (List.mem_filter.mp hrow).2

/-- Witness for claim C2 at a concrete row: the row filtered through a
country selection with conflicting ancestor arguments has that country
as its exporter. -/
theorem claim_C2_witness : sample_row_china.exporter_name = "China" := by
  refine (claim_C2 [sample_row_china] (some "Europe") (some "Western Europe") none
    "China").2.1 sample_row_china ?_
  simp [filter_by_geography, sample_row_china, mkTradeRow, List.filter]

/-- Claim C3: for a nonzero previous value `calculate_yoy_change` is the
percentage-change formula, and a zero previous value yields exactly 0
rather than an error. -/
theorem claim_C3 (current previous : ℚ) :
    (previous ≠ 0 →
      calculate_yoy_change current previous = ((current - previous) / previous) * 100)
    ∧ calculate_yoy_change current 0 = 0 := by
  constructor
  · intro h
    rw [calculate_yoy_change, if_neg h]
  · rw [calculate_yoy_change, if_pos rfl]

/-- Witness for claim C3 at (120, 100) and (50, 0). -/
theorem claim_C3_witness :
    calculate_yoy_change 120 100 = ((120 - 100) / 100) * 100
    ∧ calculate_yoy_change 50 0 = 0 :=
  ⟨(claim_C3 120 100).1 (by norm_num), (claim_C3 50 0).2⟩

/-- Claim C4: summation over a nullable quantity column adds exactly the
non-null cells — nulls are excluded rather than coerced to zero, the sum
is total (no error), and `[100, null, 200]` sums to 300. -/
theorem claim_C4 (qs : List (Option ℚ)) (rows : List TradeRow) :
    sumQuantity qs = (qs.filterMap id).sum
    ∧ total_quantity rows = ((rows.map (fun r => r.quantity)).filterMap id).sum
    ∧ sumQuantity [some 100, none, some 200] = 300 :=
  ⟨sumQuantity_eq_sum_filterMap qs, sumQuantity_eq_sum_filterMap _,
    by norm_num [sumQuantity]⟩

/-- Claim C7: `zfill 6` is idempotent; an already-6-character string is
returned unchanged ("260700" stays "260700"); a shorter all-digit string
is left-filled with zeros to length 6 ("7801" pads to "007801"). -/
theorem claim_C7 (s : String) :
    zfill 6 (zfill 6 s) = zfill 6 s
    ∧ (s.length = 6 → zfill 6 s = s)
    ∧ (s.length < 6 → (∀ c ∈ s.data, c.isDigit = true) →
        zfill 6 s = String.mk (List.replicate (6 - s.length) '0' ++ s.data))
    ∧ zfill 6 "260700" = "260700"
    ∧ zfill 6 "7801" = "007801" := by
  refine ⟨?_, ?_, zfill_eq_pad 6 s, by decide, by decide⟩
  · have h := zfill_length_ge 6 s
    rw [zfill, if_pos h]
  · intro h6
    rw [zfill, if_pos (le_of_eq h6.symm)]

/-- Witness for claim C7 at "7801": the pad branch applies and padding is
idempotent there. -/
theorem claim_C7_witness :
    zfill 6 (zfill 6 "7801") = zfill 6 "7801"
    ∧ zfill 6 "7801" = String.mk (List.replicate (6 - "7801".length) '0' ++ "7801".data) :=
  ⟨(claim_C7 "7801").1, (claim_C7 "7801").2.2.1 (by decide) (by decide)⟩

/-- Claim C9: an empty product selection is replaced by the single default
code (the first code of the first category, "260700"); the substituted
selection is never empty and a non-empty selection passes through. -/
theorem claim_C9 (sel : List String) :
    ensure_nonempty_selection sel ≠ []
    ∧ (sel = [] → ensure_nonempty_selection sel = [default_hs_code]
        ∧ default_hs_code = "260700")
    ∧ (sel ≠ [] → ensure_nonempty_selection sel = sel) := by
  refine ⟨?_, ?_, ?_⟩
  · cases sel with
    | nil => simp [ensure_nonempty_selection]
    | cons a l => simp [ensure_nonempty_selection]
  · rintro rfl
    exact ⟨rfl, rfl⟩
  · intro h
    rw [ensure_nonempty_selection, if_neg (by simpa [List.isEmpty_iff] using h)]

/-- Witness for claim C9: the empty selection is replaced by the default
code and a one-element selection passes through. -/
theorem claim_C9_witness :
    ensure_nonempty_selection [] = [default_hs_code]
    ∧ ensure_nonempty_selection ["850710"] = ["850710"] :=
  ⟨((claim_C9 []).2.1 rfl).1, (claim_C9 ["850710"]).2.2 (by simp)⟩

/-- Claim C10: with a country `c`, `filter_by_geography` keeps exactly the
rows whose `exporter_name` is `c`; a row in which `c` appears only as the
importer is never in the result. -/
theorem claim_C10 (df : List TradeRow) (r s i : Option String) (c : String) :
    (∀ row, row ∈ filter_by_geography df r s i (some c) ↔
        row ∈ df ∧ row.exporter_name = c)
    ∧ (∀ row ∈ df, row.importer_name = c → row.exporter_name ≠ c →
        row ∉ filter_by_geography df r s i (some c)) := by
  have e : filter_by_geography df r s i (some c)
      = df.filter (fun row => decide (row.exporter_name = c)) := rfl
  constructor
  · intro row
    rw [e, List.mem_filter]
    simp
  · intro row hrow him hne hmem
    rw [e, List.mem_filter] at hmem
    exact hne (by simpa using hmem.2)

/-- Witness for claim C10: the China → USA row is not selected when
filtering for country "USA", even though "USA" is its importer. -/
theorem claim_C10_witness :
    sample_row_china ∉
      filter_by_geography [sample_row_china] none none none (some "USA") := by
  refine (claim_C10 [sample_row_china] none none none "USA").2
    sample_row_china ?_ ?_ ?_
  · simp
  · rfl
  · decide

/-- Claim C8: `get_available_countries` returns a lexicographically
sorted, duplicate-free list of names of rows with a non-absent name, and
adding any single ancestor filter never enlarges the result. -/
theorem claim_C8 (df : List CountryRow) (r s i : Option String) :
    List.Pairwise (fun a b => strLeb a b = true) (get_available_countries df r s i)
    ∧ (get_available_countries df r s i).Nodup
    ∧ (∀ x ∈ get_available_countries df r s i, ∃ row, row ∈ df ∧ row.name = some x)
    ∧ (∀ rg x, x ∈ get_available_countries df (some rg) s i →
        x ∈ get_available_countries df none s i)
    ∧ (∀ sg x, x ∈ get_available_countries df r (some sg) i →
        x ∈ get_available_countries df r none i)
    ∧ (∀ ig x, x ∈ get_available_countries df r s (some ig) →
        x ∈ get_available_countries df r s none) := by
  refine ⟨?_, ?_, ?_, ?_, ?_, ?_⟩
  · exact pairwise_sortLe strLeb strLeb_trans strLeb_total _
  · exact (perm_sortLe strLeb _).symm.nodup (List.nodup_dedup _)
  · intro x hx
    obtain ⟨row, hrow, hname⟩ := (mem_get_available_countries df r s i x).mp hx
    exact ⟨row, ((mem_country_rows df r s i row).mp hrow).1, hname⟩
  · intro rg x hx
    obtain ⟨row, hrow, hname⟩ := (mem_get_available_countries df (some rg) s i x).mp hx
    obtain ⟨h1, h2, _, h4, h5⟩ := (mem_country_rows df (some rg) s i row).mp hrow
    exact (mem_get_available_countries df none s i x).mpr
      ⟨row, (mem_country_rows df none s i row).mpr ⟨h1, h2, by simp, h4, h5⟩, hname⟩
  · intro sg x hx
    obtain ⟨row, hrow, hname⟩ := (mem_get_available_countries df r (some sg) i x).mp hx
    obtain ⟨h1, h2, h3, _, h5⟩ := (mem_country_rows df r (some sg) i row).mp hrow
    exact (mem_get_available_countries df r none i x).mpr
      ⟨row, (mem_country_rows df r none i row).mpr ⟨h1, h2, h3, by simp, h5⟩, hname⟩
  · intro ig x hx
    obtain ⟨row, hrow, hname⟩ := (mem_get_available_countries df r s (some ig) x).mp hx
    obtain ⟨h1, h2, h3, h4, _⟩ := (mem_country_rows df r s (some ig) row).mp hrow
    exact (mem_get_available_countries df r s none x).mpr
      ⟨row, (mem_country_rows df r s none row).mpr ⟨h1, h2, h3, h4, by simp⟩, hname⟩

/-- Concrete country metadata rows for the C8 witness. -/
def sample_country_china : CountryRow :=
  { name := some "China", region := some "Asia", subregion := some "Eastern Asia",
    intermediate_region := none }

/-- Second concrete country metadata row for the C8 witness. -/
def sample_country_turkiye : CountryRow :=
  { name := some "Türkiye", region := some "Asia", subregion := some "Western Asia",
    intermediate_region := none }

/-- Witness for claim C8: a name resolved under region + subregion also
appears for the region alone. -/
theorem claim_C8_witness :
    "China" ∈ get_available_countries [sample_country_china, sample_country_turkiye]
      (some "Asia") none none := by
  refine (claim_C8 [sample_country_china, sample_country_turkiye]
    (some "Asia") none none).2.2.2.2.1 "Eastern Asia" "China" ?_
  decide

/-- Claim C1 (amended): the per-year partner rollup sums quantity by
partner for that year, orders partners by total quantity descending — the
order among partners with equal totals is not specified (the sort is
unstable, so in particular first-seen input order is not preserved) — and
truncates to at most 20 entries.  Every property here is proved for every
output the unstable sort may produce (`sort_values_desc_spec`), the
executable model being one such output; partner totals [500, 1200, 300]
(tie-free, hence sort-order independent) come out as [1200, 500, 300]. -/
theorem claim_C1_amended (partner : TradeRow → String) (trades : List TradeRow)
    (year : Int) :
    sort_values_desc_spec (partner_group_totals partner (year_rows trades year))
      (sortLe quantityGe (partner_group_totals partner (year_rows trades year)))
    ∧ (∀ out, sort_values_desc_spec
          (partner_group_totals partner (year_rows trades year)) out →
        (out.take 20).length ≤ 20
        ∧ List.Pairwise (fun a b => b.2 ≤ a.2) (out.take 20)
        ∧ (∀ pq ∈ out.take 20,
            pq.2 = partner_total partner (year_rows trades year) pq.1))
    ∧ (country_totals partner trades year).length ≤ 20
    ∧ List.Pairwise (fun a b => b.2 ≤ a.2) (country_totals partner trades year)
    ∧ (∀ pq ∈ country_totals partner trades year,
        pq.2 = partner_total partner (year_rows trades year) pq.1)
    ∧ country_totals (fun row => row.importer_name)
        [mkTradeRow 2024 "China" "P" (some 500),
         mkTradeRow 2024 "China" "Q" (some 1200),
         mkTradeRow 2024 "China" "R" (some 300)] 2024 =
        [("Q", 1200), ("P", 500), ("R", 300)] := by
  have hmodel : sort_values_desc_spec
      (partner_group_totals partner (year_rows trades year))
      (sortLe quantityGe (partner_group_totals partner (year_rows trades year))) := by
    constructor
    · exact perm_sortLe quantityGe _
    · exact (pairwise_sortLe quantityGe quantityGe_trans quantityGe_total _).imp
        (fun h => by simpa [quantityGe] using h)
  have huniv : ∀ out, sort_values_desc_spec
      (partner_group_totals partner (year_rows trades year)) out →
      (out.take 20).length ≤ 20
      ∧ List.Pairwise (fun a b => b.2 ≤ a.2) (out.take 20)
      ∧ (∀ pq ∈ out.take 20,
          pq.2 = partner_total partner (year_rows trades year) pq.1) := by
    rintro out ⟨hperm, hdesc⟩
    refine ⟨?_, hdesc.sublist (List.take_sublist _ _), ?_⟩
    · rw [List.length_take]
      exact min_le_left _ _
    · intro pq hpq
      have h1 : pq ∈ out := (List.take_sublist _ _).subset hpq
      have h2 : pq ∈ partner_group_totals partner (year_rows trades year) :=
        hperm.subset h1
      obtain ⟨p, _, hpe⟩ := List.mem_map.mp h2
      rw [← hpe]
  have hinst := huniv _ hmodel
  refine ⟨hmodel, huniv, hinst.1, hinst.2.1, hinst.2.2, ?_⟩
  norm_num [country_totals, year_rows, partner_group_totals, partner_total,
    sortStr, sortLe, insertLe, quantityGe, strLeb, lexLe, sumQuantity,
    List.dedup_cons_of_not_mem, List.dedup_nil, List.mem_cons,
    List.not_mem_nil, mkTradeRow, List.filter]

/-- Witness for claim C1 (amended): in the concrete [500, 1200, 300]
ranking the entry ("Q", 1200) carries exactly partner Q's summed
quantity, obtained through the sort contract discharged by the model. -/
theorem claim_C1_amended_witness :
    ("Q", (1200 : ℚ)).2 = partner_total (fun row => row.importer_name)
      (year_rows
        [mkTradeRow 2024 "China" "P" (some 500),
         mkTradeRow 2024 "China" "Q" (some 1200),
         mkTradeRow 2024 "China" "R" (some 300)] 2024) "Q" := by
  have h := claim_C1_amended (fun row => row.importer_name)
    [mkTradeRow 2024 "China" "P" (some 500),
     mkTradeRow 2024 "China" "Q" (some 1200),
     mkTradeRow 2024 "China" "R" (some 300)] 2024
  refine (h.2.1 _ h.1).2.2 ("Q", 1200) ?_
  show ("Q", (1200 : ℚ)) ∈ country_totals (fun row => row.importer_name)
    [mkTradeRow 2024 "China" "P" (some 500),
     mkTradeRow 2024 "China" "Q" (some 1200),
     mkTradeRow 2024 "China" "R" (some 300)] 2024
  rw [h.2.2.2.2.2]
  simp

/-- Counterexample to claim C1 as stated: with two partners tied at total
100 and first seen in the order Zed, Alpha, the code ranks Alpha first
(the grouping step sorts keys alphabetically), not the first-seen partner
Zed. -/
theorem claim_C1_counterexample :
    country_totals (fun row => row.importer_name)
        [mkTradeRow 2020 "China" "Zed" (some 100),
         mkTradeRow 2020 "China" "Alpha" (some 100)] 2020
      = [("Alpha", 100), ("Zed", 100)]
    ∧ country_totals (fun row => row.importer_name)
        [mkTradeRow 2020 "China" "Zed" (some 100),
         mkTradeRow 2020 "China" "Alpha" (some 100)] 2020
      ≠ [("Zed", 100), ("Alpha", 100)] := by
  have h : country_totals (fun row => row.importer_name)
      [mkTradeRow 2020 "China" "Zed" (some 100),
       mkTradeRow 2020 "China" "Alpha" (some 100)] 2020
      = [("Alpha", 100), ("Zed", 100)] := by
    norm_num [country_totals, year_rows, partner_group_totals, partner_total,
      sortStr, sortLe, insertLe, quantityGe, strLeb, lexLe, sumQuantity,
      List.dedup_cons_of_not_mem, List.dedup_nil, List.mem_cons,
      List.not_mem_nil, mkTradeRow, List.filter]
  refine ⟨h, ?_⟩
  rw [h]
  intro heq
  have h3 := congrArg (fun l => l.map Prod.fst) heq
  simp at h3

/-- Claim C5: `load_trade_data` rewrites the corrupted "TÃ¼rkiye" in both
name columns before anything downstream runs, and a record whose exporter
was corrupted is afterwards matched by the country filter on "Türkiye". -/
theorem claim_C5 (rows : List RawTradeRow) (r : RawTradeRow) (hr : r ∈ rows) :
    processTradeRow r ∈ load_trade_data rows
    ∧ (processTradeRow r).exporter_name
        = str_replace r.exporter_name turkiye_corrupted turkiye_fixed
    ∧ (processTradeRow r).importer_name
        = str_replace r.importer_name turkiye_corrupted turkiye_fixed
    ∧ (r.exporter_name = turkiye_corrupted →
        (processTradeRow r).exporter_name = turkiye_fixed
        ∧ processTradeRow r ∈
            filter_by_geography (load_trade_data rows) none none none
              (some turkiye_fixed)) := by
  have hfix : str_replace turkiye_corrupted turkiye_corrupted turkiye_fixed
      = turkiye_fixed := by decide
  have hmem : processTradeRow r ∈ load_trade_data rows := List.mem_map_of_mem _ hr
  refine ⟨hmem, rfl, rfl, ?_⟩
  intro hcor
  have hexp : (processTradeRow r).exporter_name = turkiye_fixed := by
    show str_replace r.exporter_name turkiye_corrupted turkiye_fixed = turkiye_fixed
    rw [hcor, hfix]
  refine ⟨hexp, ?_⟩
  have e : filter_by_geography (load_trade_data rows) none none none
      (some turkiye_fixed)
      = (load_trade_data rows).filter
          (fun row => decide (row.exporter_name = turkiye_fixed)) := rfl
  rw [e, List.mem_filter]
  exact ⟨hmem, by simp [hexp]⟩

/-- A concrete raw record with the corrupted exporter name. -/
def raw_turkiye_row : RawTradeRow :=
  { year := 2020, exporter_name := "TÃ¼rkiye", importer_name := "USA",
    product := ProductCell.strVal "780110", quantity := some 100, value := 5000 }

/-- Witness for claim C5 at the concrete corrupted record. -/
theorem claim_C5_witness :
    (processTradeRow raw_turkiye_row).exporter_name = turkiye_fixed
    ∧ processTradeRow raw_turkiye_row ∈
        filter_by_geography (load_trade_data [raw_turkiye_row]) none none none
          (some turkiye_fixed) :=
  (claim_C5 [raw_turkiye_row] raw_turkiye_row (List.mem_singleton_self _)).2.2.2 rfl

/-- A concrete raw record whose product cell has seven characters. -/
def raw_long_code_row : RawTradeRow :=
  { year := 2020, exporter_name := "China", importer_name := "USA",
    product := ProductCell.strVal "1234567", quantity := some 10, value := 1 }

/-- Counterexample to claim C6 as stated: `zfill(6)` leaves a 7-character
product code unchanged, so the stored value is not 6 characters long. -/
theorem claim_C6_counterexample :
    (processTradeRow raw_long_code_row).product = "1234567"
    ∧ (processTradeRow raw_long_code_row).product.length ≠ 6 := by
  constructor
  · show zfill 6 (ProductCell.strVal "1234567").pyStr = "1234567"
    decide
  · show ¬ (zfill 6 (ProductCell.strVal "1234567").pyStr).length = 6
    decide

/-- Claim C6 (amended): the stored product value is always the 6-wide
zero-fill of the input's string form, carried as a string; whenever that
string form is at most 6 digit characters, the stored value consists of
exactly 6 digit characters, left-zero-padded. -/
theorem claim_C6_amended (r : RawTradeRow) :
    (processTradeRow r).product = zfill 6 r.product.pyStr
    ∧ (r.product.pyStr.length ≤ 6 →
        (∀ c ∈ r.product.pyStr.data, c.isDigit = true) →
        (processTradeRow r).product.length = 6
          ∧ ∀ c ∈ (processTradeRow r).product.data, c.isDigit = true) := by
  refine ⟨rfl, ?_⟩
  intro hlen hdig
  exact zfill_digits 6 r.product.pyStr hlen hdig

/-- A concrete raw record with a 4-digit (malformed, short) product cell. -/
def raw_short_code_row : RawTradeRow :=
  { year := 2021, exporter_name := "China", importer_name := "USA",
    product := ProductCell.strVal "7801", quantity := some 10, value := 1 }

/-- Witness for claim C6 (amended) at the concrete short code "7801". -/
theorem claim_C6_witness :
    (processTradeRow raw_short_code_row).product.length = 6
    ∧ ∀ c ∈ (processTradeRow raw_short_code_row).product.data, c.isDigit = true :=
  (claim_C6_amended raw_short_code_row).2 (by decide) (by decide)

end LeadTrade
